import Mathlib

/-!
Shallow embedding of `torch/fx/passes/backends/nvfuser/operator_support.py`
(`NvFuserOperatorSupport`): the support-table builder run in `__init__` and
the node predicate `is_node_supported`.

Python dicts whose values are always `None` are modelled as duplicate-free
lists of keys (`insertKey` appends the key only when absent, matching the
key-set effect of `d[k] = None`).
-/

/-- Tests whether the second character list starts with the first. -/
def beginsWith : List Char → List Char → Bool
  | [], _ => true
  | _ :: _, [] => false
  | a :: as, b :: bs => a == b && beginsWith as bs

/-- Tests whether the character list n occurs contiguously inside the second list. -/
def occursInAux (n : List Char) : List Char → Bool
  | [] => beginsWith n []
  | c :: t => beginsWith n (c :: t) || occursInAux n t

/-- Pythonic substring test on strings, as in the expression needle in haystack. -/
def containsSub (needle haystack : String) : Bool :=
  occursInAux needle.data haystack.data

/-- Key set of a Python dict with sentinel values: `d[k] = None` adds `k`
only when it is absent (overwriting the value does not change the key set). -/
def insertKey (t : List String) (k : String) : List String :=
  if k ∈ t then t else t ++ [k]

/-- A key of the global `decomposition_table`: either a
`torch._ops.OpOverload` (whose `overloadpacket` drops the variant suffix),
an `OpOverloadPacket`, or some other object used as-is. -/
inductive OpKey where
  | overload (packet : String) (variant : String)
  | packet (name : String)
  | other (s : String)
deriving DecidableEq, Repr

/-- Rendering of a decomposition-table key, mirroring str applied to the key. -/
def OpKey.str : OpKey → String
  | .overload p v => p ++ "." ++ v
  | .packet n => n
  | .other s => s

/-- The body of the decomposition loop: `op_packet = k`, replaced by
`k.overloadpacket` when `k` is an `OpOverload`. -/
def OpKey.normalize : OpKey → OpKey
  | .overload p _ => .packet p
  | k => k

/-- Fully qualified table key produced for a decomposition-table entry,
mirroring the torch.ops. interpolation in the source. -/
def tableKey (k : OpKey) : String :=
  "torch.ops." ++ k.normalize.str

/-- A value of the decomposition table: a callable that may or may not carry
a `__module__` attribute (`none` models `hasattr(v, "__module__") == False`). -/
structure DecompValue where
  module : Option String
deriving DecidableEq, Repr

/-- Mirrors hasattr(v, dunder module) and "torch._refs" in v.__module__ from the source. -/
def isRefs (v : DecompValue) : Bool :=
  match v.module with
  | some m => containsSub "torch._refs" m
  | none => false

/-- An attribute of `torch.ops.prims` as seen by `dir(...)` / `getattr`:
its name and whether it passes the isinstance OpOverloadPacket test from
the source. -/
structure PrimAttr where
  name : String
  isPacket : Bool
deriving DecidableEq, Repr

/-- The fixed denylist unsupported_prims from the source. -/
def unsupported_prims : List String := ["cat", "maximum", "transpose"]

/-- The denylist test the code performs for a prims-namespace name op:
unsupported becomes true when the interpolated op string occurs inside prim
for some prim in unsupported_prims — note the direction: op is tested as a
substring of the denylist entry. -/
def deniedCheck (op : String) : Bool :=
  unsupported_prims.any (fun prim => containsSub op prim)

/-- The hand-curated legacy seed table `jit_dict` (key set, in source order;
commented-out entries omitted as in the source). -/
def jit_dict : List String :=
  [ "torch.ops.aten.add",
    "torch.ops.aten.sub",
    "torch.ops.aten.rsub",
    "torch.ops.aten.atan2",
    "torch.ops.aten.mul",
    "torch.ops.aten.max",
    "torch.ops.aten.min",
    "torch.ops.aten.pow",
    "torch.ops.aten.remainder",
    "torch.ops.aten.fmod",
    "torch.ops.aten.bitwise_and",
    "torch.ops.aten.__and__",
    "torch.ops.aten.bitwise_or",
    "torch.ops.aten.__or__",
    "torch.ops.aten.bitwise_xor",
    "torch.ops.aten.__xor__",
    "torch.ops.aten.bitwise_left_shift",
    "torch.ops.aten.__lshift__",
    "torch.ops.aten.bitwise_right_shift",
    "torch.ops.aten.__rshift__",
    "torch.ops.aten.eq",
    "torch.ops.aten.ne",
    "torch.ops.aten.ge",
    "torch.ops.aten.gt",
    "torch.ops.aten.le",
    "torch.ops.aten.lt",
    "torch.ops.aten.abs",
    "torch.ops.aten.bitwise_not",
    "torch.ops.aten.ceil",
    "torch.ops.aten.floor",
    "torch.ops.aten.frac",
    "torch.ops.aten.neg",
    "torch.ops.aten.relu",
    "torch.ops.aten.round",
    "torch.ops.aten.silu",
    "torch.ops.aten.trunc",
    "torch.ops.aten.log",
    "torch.ops.aten.log10",
    "torch.ops.aten.log1p",
    "torch.ops.aten.log2",
    "torch.ops.aten.lgamma",
    "torch.ops.aten.exp",
    "torch.ops.aten.expm1",
    "torch.ops.aten.erf",
    "torch.ops.aten.erfc",
    "torch.ops.aten.cos",
    "torch.ops.aten.acos",
    "torch.ops.aten.cosh",
    "torch.ops.aten.sin",
    "torch.ops.aten.asin",
    "torch.ops.aten.sinh",
    "torch.ops.aten.tan",
    "torch.ops.aten.atan",
    "torch.ops.aten.tanh",
    "torch.ops.aten.atanh",
    "torch.ops.aten.sqrt",
    "torch.ops.aten.rsqrt",
    "torch.ops.aten.reciprocal",
    "torch.ops.aten.sigmoid",
    "torch.ops.aten.isfinite",
    "torch.ops.aten.isinf",
    "torch.ops.aten.isnan",
    "torch.ops.aten.isneginf",
    "torch.ops.aten.isposinf",
    "torch.ops.aten.isreal",
    "torch.ops.aten.rand_like",
    "torch.ops.aten.softplus",
    "torch.ops.aten.threshold",
    "torch.ops.aten.clamp",
    "torch.ops.aten.where",
    "torch.ops.aten.lerp",
    "torch.ops.aten.addcmul",
    "torch.ops.aten.native_dropout",
    "torch.ops.aten.dropout",
    "torch.ops.aten.native_dropout_backward",
    "torch.ops.aten.instance_norm",
    "torch.ops.aten._batch_norm_impl_index",
    "torch.ops.aten.native_batch_norm",
    "torch.ops.aten.batch_norm",
    "torch.ops.aten.cudnn_batch_norm",
    "torch.ops.aten._batch_norm_impl_index_backward",
    "torch.ops.aten.native_batch_norm_backward",
    "torch.ops.aten.native_layer_norm",
    "torch.ops.aten.layer_norm",
    "torch.ops.aten.softmax.int",
    "torch.ops.aten.log_softmax.int",
    "torch.ops.aten._log_softmax_backward_data",
    "torch.ops.aten._softmax_backward_data",
    "torch.ops.aten.var.dim",
    "torch.ops.aten.std.dim",
    "torch.ops.aten.sum.dim_IntList",
    "torch.ops.aten.mean.dim",
    "torch.ops.aten._grad_sum_to_size",
    "torch.ops.aten.sum_to_size",
    "torch.ops.aten._autocast_to_reduced_precision",
    "torch.ops.aten._autocast_to_full_precision",
    "torch.ops.aten.to.dtype",
    "torch.ops.aten.type_as",
    "torch.ops.aten.linear",
    "torch.ops.aten.gelu",
    "torch.ops.aten.gelu_backward",
    "torch.ops.aten.amin",
    "torch.ops.aten.reshape",
    "torch.ops.aten.flatten.using_ints",
    "getattr",
    "_operator.getitem" ]

/-- The loop over `decomposition_table.items()`: entries whose value was
defined in `torch._refs` contribute their normalized table key. -/
def decompStep (init : List String) (reg : List (OpKey × DecompValue)) : List String :=
  reg.foldl (fun acc kv => if isRefs kv.2 then insertKey acc (tableKey kv.1) else acc) init

/-- The loop over `dir(torch.ops.prims)`: attributes that are
overload packets and pass the denylist check contribute their fully
qualified torch.ops.prims name. -/
def primsStep (init : List String) (prims : List PrimAttr) : List String :=
  prims.foldl
    (fun acc q =>
      if q.isPacket then
        if deniedCheck q.name then acc else insertKey acc ("torch.ops.prims." ++ q.name)
      else acc)
    init

/-- Mirrors NvFuserOperatorSupport.__init__: the key set of the ref_dict
handed to the base class, as a function of the flag and of snapshots of the
two external registries. -/
def buildRefDict (use_only_jit_ops : Bool) (decompTable : List (OpKey × DecompValue))
    (primsDir : List PrimAttr) : List String :=
  if use_only_jit_ops then jit_dict
  else primsStep (decompStep jit_dict decompTable) primsDir

/-- A `torch.fx.Node` as this predicate reads it: its `op` kind string and
the qualified name of its target. -/
structure FxNode where
  op : String
  target : String
deriving DecidableEq, Repr

/-- Modelled from the spec: `CALLABLE_NODE_OPS` comes from
`torch.fx.passes.tools_common`, which is not among the sources; the spec
names the callable kinds as function call, method call and module call. -/
def CALLABLE_NODE_OPS : List String := ["call_function", "call_method", "call_module"]

/-- Modelled from the spec: the base class `OperatorSupport.is_node_supported`
is not among the sources; per the spec it returns true iff the fully
qualified operation name of the node is present in the support table. -/
def baseIsNodeSupported (table : List String) (node : FxNode) : Bool :=
  table.contains node.target

/-- Mirrors NvFuserOperatorSupport.is_node_supported: reject non-callable
node kinds, then defer to the base-class table lookup. -/
def is_node_supported (table : List String) (node : FxNode) : Bool :=
  if CALLABLE_NODE_OPS.contains node.op then baseIsNodeSupported table node
  else false

example : containsSub "cat" "scatter" = true := by decide
example : containsSub "scatter" "cat" = false := by decide
example : deniedCheck "cat" = true := by decide
example : deniedCheck "scatter" = false := by decide
example : deniedCheck "max" = true := by decide
example : tableKey (.overload "aten.add" "Tensor") = "torch.ops.aten.add" := by decide

/-! ### Helper lemmas -/

theorem mem_insertKey {t : List String} {k x : String} :
    x ∈ insertKey t k ↔ x ∈ t ∨ x = k := by
  unfold insertKey
  by_cases h : k ∈ t
  · simp only [if_pos h]
    constructor
    · exact Or.inl
    · rintro (hx | rfl)
      · exact hx
      · exact h
  · simp [if_neg h, List.mem_append]

theorem insertKey_nodup {t : List String} {k : String} (h : t.Nodup) :
    (insertKey t k).Nodup := by
  unfold insertKey
  by_cases hk : k ∈ t
  · simpa [if_pos hk]
  · rw [if_neg hk]
    refine List.nodup_append.mpr ⟨h, List.nodup_singleton k, ?_⟩
    intro a ha hb
    rw [List.mem_singleton] at hb
    subst hb
    exact hk ha

theorem mem_decompStep (init : List String) (reg : List (OpKey × DecompValue)) (x : String) :
    x ∈ decompStep init reg ↔
      x ∈ init ∨ ∃ kv, kv ∈ reg ∧ isRefs kv.2 = true ∧ tableKey kv.1 = x := by
  induction reg generalizing init with
  | nil => simp [decompStep]
  | cons kv rest ih =>
    show x ∈ decompStep (if isRefs kv.2 then insertKey init (tableKey kv.1) else init) rest ↔ _
    by_cases hr : isRefs kv.2 = true
    · rw [if_pos hr, ih, mem_insertKey]
      constructor
      · rintro ((hx | rfl) | ⟨kv2, h1, h2, h3⟩)
        · exact Or.inl hx
        · exact Or.inr ⟨kv, List.mem_cons_self _ _, hr, rfl⟩
        · exact Or.inr ⟨kv2, List.mem_cons_of_mem _ h1, h2, h3⟩
      · rintro (hx | ⟨kv2, h1, h2, h3⟩)
        · exact Or.inl (Or.inl hx)
        · rcases List.mem_cons.mp h1 with rfl | h1
          · exact Or.inl (Or.inr h3.symm)
          · exact Or.inr ⟨kv2, h1, h2, h3⟩
    · rw [if_neg hr, ih]
      constructor
      · rintro (hx | ⟨kv2, h1, h2, h3⟩)
        · exact Or.inl hx
        · exact Or.inr ⟨kv2, List.mem_cons_of_mem _ h1, h2, h3⟩
      · rintro (hx | ⟨kv2, h1, h2, h3⟩)
        · exact Or.inl hx
        · rcases List.mem_cons.mp h1 with rfl | h1
          · exact absurd h2 hr
          · exact Or.inr ⟨kv2, h1, h2, h3⟩

theorem mem_primsStep (init : List String) (prims : List PrimAttr) (x : String) :
    x ∈ primsStep init prims ↔
      x ∈ init ∨ ∃ q, q ∈ prims ∧ q.isPacket = true ∧ deniedCheck q.name = false ∧
        "torch.ops.prims." ++ q.name = x := by
  induction prims generalizing init with
  | nil => simp [primsStep]
  | cons q rest ih =>
    show x ∈ primsStep
        (if q.isPacket then
          if deniedCheck q.name then init else insertKey init ("torch.ops.prims." ++ q.name)
        else init) rest ↔ _
    by_cases hp : q.isPacket = true
    · by_cases hd : deniedCheck q.name = true
      · rw [hp, if_pos rfl, if_pos hd, ih]
        constructor
        · rintro (hx | ⟨q2, h1, h2, h3, h4⟩)
          · exact Or.inl hx
          · exact Or.inr ⟨q2, List.mem_cons_of_mem _ h1, h2, h3, h4⟩
        · rintro (hx | ⟨q2, h1, h2, h3, h4⟩)
          · exact Or.inl hx
          · rcases List.mem_cons.mp h1 with rfl | h1
            · rw [hd] at h3; exact absurd h3 (by simp)
            · exact Or.inr ⟨q2, h1, h2, h3, h4⟩
      · rw [hp, if_pos rfl, if_neg hd, ih, mem_insertKey]
        rw [Bool.not_eq_true] at hd
        constructor
        · rintro ((hx | rfl) | ⟨q2, h1, h2, h3, h4⟩)
          · exact Or.inl hx
          · exact Or.inr ⟨q, List.mem_cons_self _ _, hp, hd, rfl⟩
          · exact Or.inr ⟨q2, List.mem_cons_of_mem _ h1, h2, h3, h4⟩
        · rintro (hx | ⟨q2, h1, h2, h3, h4⟩)
          · exact Or.inl (Or.inl hx)
          · rcases List.mem_cons.mp h1 with rfl | h1
            · exact Or.inl (Or.inr h4.symm)
            · exact Or.inr ⟨q2, h1, h2, h3, h4⟩
    · rw [Bool.not_eq_true] at hp
      rw [hp, if_neg (by simp), ih]
      constructor
      · rintro (hx | ⟨q2, h1, h2, h3, h4⟩)
        · exact Or.inl hx
        · exact Or.inr ⟨q2, List.mem_cons_of_mem _ h1, h2, h3, h4⟩
      · rintro (hx | ⟨q2, h1, h2, h3, h4⟩)
        · exact Or.inl hx
        · rcases List.mem_cons.mp h1 with rfl | h1
          · rw [hp] at h2; exact absurd h2 (by simp)
          · exact Or.inr ⟨q2, h1, h2, h3, h4⟩

theorem decompStep_nodup {init : List String} (reg : List (OpKey × DecompValue))
    (h : init.Nodup) : (decompStep init reg).Nodup := by
  induction reg generalizing init with
  | nil => simpa [decompStep]
  | cons kv rest ih =>
    show (decompStep (if isRefs kv.2 then insertKey init (tableKey kv.1) else init) rest).Nodup
    by_cases hr : isRefs kv.2 = true
    · rw [if_pos hr]; exact ih (insertKey_nodup h)
    · rw [if_neg hr]; exact ih h

theorem primsStep_nodup {init : List String} (prims : List PrimAttr)
    (h : init.Nodup) : (primsStep init prims).Nodup := by
  induction prims generalizing init with
  | nil => simpa [primsStep]
  | cons q rest ih =>
    show (primsStep
        (if q.isPacket then
          if deniedCheck q.name then init else insertKey init ("torch.ops.prims." ++ q.name)
        else init) rest).Nodup
    by_cases hp : q.isPacket = true
    · by_cases hd : deniedCheck q.name = true
      · rw [hp, if_pos rfl, if_pos hd]; exact ih h
      · rw [hp, if_pos rfl, if_neg hd]; exact ih (insertKey_nodup h)
    · rw [Bool.not_eq_true] at hp
      rw [hp, if_neg (by simp)]; exact ih h

set_option maxHeartbeats 4000000 in
theorem jit_dict_nodup : jit_dict.Nodup := by decide

theorem buildRefDict_nodup (flag : Bool) (reg : List (OpKey × DecompValue))
    (prims : List PrimAttr) : (buildRefDict flag reg prims).Nodup := by
  unfold buildRefDict
  by_cases hf : flag = true
  · rw [if_pos hf]; exact jit_dict_nodup
  · rw [if_neg hf]; exact primsStep_nodup _ (decompStep_nodup _ jit_dict_nodup)

theorem mem_buildRefDict_false (reg : List (OpKey × DecompValue)) (prims : List PrimAttr)
    (x : String) :
    x ∈ buildRefDict false reg prims ↔
      x ∈ jit_dict ∨
      (∃ kv, kv ∈ reg ∧ isRefs kv.2 = true ∧ tableKey kv.1 = x) ∨
      (∃ q, q ∈ prims ∧ q.isPacket = true ∧ deniedCheck q.name = false ∧
        "torch.ops.prims." ++ q.name = x) := by
  show x ∈ primsStep (decompStep jit_dict reg) prims ↔ _
  rw [mem_primsStep, mem_decompStep, or_assoc]

theorem jit_subset_buildRefDict (flag : Bool) (reg : List (OpKey × DecompValue))
    (prims : List PrimAttr) {op : String} (h : op ∈ jit_dict) :
    op ∈ buildRefDict flag reg prims := by
  by_cases hf : flag = true
  · subst hf; exact h
  · rw [Bool.not_eq_true] at hf
    subst hf
    exact (mem_buildRefDict_false reg prims op).mpr (Or.inl h)

/-! ### Claim theorems -/

theorem string_append_left_cancel {s a b : String} (h : s ++ a = s ++ b) : a = b := by
  have hd : (s ++ a).data = (s ++ b).data := congrArg String.data h
  rw [String.data_append, String.data_append] at hd
  exact String.ext (List.append_cancel_left hd)

/-- C3: when the builder is called with use_only_legacy true, the resulting
support table is exactly the fixed legacy seed table, for every state of the
decomposition registry and of the primitive namespace; the registries are
not consulted. -/
theorem C3_legacy_mode_exact (reg : List (OpKey × DecompValue)) (prims : List PrimAttr) :
    buildRefDict true reg prims = jit_dict := rfl

/-- C5: every operation name in the legacy seed table is a member of the
built table in both modes and for every state of the external registries:
the extension steps only add entries and never remove a legacy entry. -/
theorem C5_legacy_never_removed (flag : Bool) (reg : List (OpKey × DecompValue))
    (prims : List PrimAttr) (op : String) (h : op ∈ jit_dict) :
    op ∈ buildRefDict flag reg prims :=
  jit_subset_buildRefDict flag reg prims h

theorem C5_witness :
    "torch.ops.aten.add" ∈ jit_dict ∧
    "torch.ops.aten.add" ∈ buildRefDict false [] [] :=
  ⟨by decide, C5_legacy_never_removed false [] [] "torch.ops.aten.add" (by decide)⟩

/-- C7: the builder is deterministic: two runs over identical snapshots of
the decomposition registry and primitive namespace, with the same flag,
produce tables with equal membership sets. -/
theorem C7_deterministic (flag : Bool) (r1 r2 : List (OpKey × DecompValue))
    (p1 p2 : List PrimAttr) (x : String) (h1 : r1 = r2) (h2 : p1 = p2) :
    (x ∈ buildRefDict flag r1 p1 ↔ x ∈ buildRefDict flag r2 p2) := by
  subst h1
  subst h2
  exact Iff.rfl

theorem C7_witness :
    ("torch.ops.aten.add" ∈ buildRefDict false [] [] ↔
      "torch.ops.aten.add" ∈ buildRefDict false [] []) :=
  C7_deterministic false [] [] [] [] "torch.ops.aten.add" rfl rfl

/-- C4: for every graph node whose kind is not a function, method or module
call (placeholder, output, get-attribute, or any unknown kind),
is_node_supported returns false, regardless of the table contents and of
the qualified name of the node. -/
theorem C4_non_callable_rejected (table : List String) (node : FxNode)
    (h : node.op ∉ CALLABLE_NODE_OPS) :
    is_node_supported table node = false := by
  unfold is_node_supported
  have hc : CALLABLE_NODE_OPS.contains node.op = false := by
    cases hb : CALLABLE_NODE_OPS.contains node.op
    · rfl
    · exact absurd (List.elem_iff.mp hb) h
  simp only [hc, Bool.false_eq_true, if_false]

theorem C4_witness :
    (FxNode.mk "placeholder" "torch.ops.aten.add").op ∉ CALLABLE_NODE_OPS ∧
    is_node_supported jit_dict (FxNode.mk "placeholder" "torch.ops.aten.add") = false :=
  ⟨by decide, C4_non_callable_rejected jit_dict (FxNode.mk "placeholder" "torch.ops.aten.add")
    (by decide)⟩

/-- C10: the legacy seed table contains the builtin entries "getattr" and
"_operator.getitem"; in both modes a function-call node with either
qualified name is reported supported, while get-attribute-kind nodes are
always rejected. -/
theorem C10_builtin_entries (flag : Bool) (reg : List (OpKey × DecompValue))
    (prims : List PrimAttr) :
    "getattr" ∈ jit_dict ∧ "_operator.getitem" ∈ jit_dict ∧
    is_node_supported (buildRefDict flag reg prims) (FxNode.mk "call_function" "getattr") = true ∧
    is_node_supported (buildRefDict flag reg prims)
      (FxNode.mk "call_function" "_operator.getitem") = true ∧
    ∀ nm : String,
      is_node_supported (buildRefDict flag reg prims) (FxNode.mk "get_attr" nm) = false := by
  refine ⟨by decide, by decide, ?_, ?_, ?_⟩
  · show is_node_supported _ _ = true
    unfold is_node_supported baseIsNodeSupported
    have h1 : CALLABLE_NODE_OPS.contains "call_function" = true := by decide
    simp only [h1, if_true]
    exact List.elem_iff.mpr (jit_subset_buildRefDict flag reg prims (by decide))
  · show is_node_supported _ _ = true
    unfold is_node_supported baseIsNodeSupported
    have h1 : CALLABLE_NODE_OPS.contains "call_function" = true := by decide
    simp only [h1, if_true]
    exact List.elem_iff.mpr (jit_subset_buildRefDict flag reg prims (by decide))
  · intro nm
    unfold is_node_supported
    have h2 : CALLABLE_NODE_OPS.contains "get_attr" = false := by decide
    simp only [h2, Bool.false_eq_true, if_false]

/-- C2: a decomposition-registry entry contributes its overload-independent
canonical key to the table (non-legacy mode) if its implementation carries a
module originating from torch._refs; an entry whose module does not match is
excluded, provided no other table source independently produces the same
key. -/
theorem C2_refs_filter (reg : List (OpKey × DecompValue)) (prims : List PrimAttr)
    (k : OpKey) (v : DecompValue) (hmem : (k, v) ∈ reg) :
    (isRefs v = true → tableKey k ∈ buildRefDict false reg prims) ∧
    (isRefs v = false →
      tableKey k ∉ jit_dict →
      (∀ kv, kv ∈ reg → tableKey kv.1 = tableKey k → isRefs kv.2 = false) →
      (∀ q, q ∈ prims → "torch.ops.prims." ++ q.name ≠ tableKey k) →
      tableKey k ∉ buildRefDict false reg prims) := by
  constructor
  · intro h
    exact (mem_buildRefDict_false reg prims _).mpr (Or.inr (Or.inl ⟨(k, v), hmem, h, rfl⟩))
  · intro _ hjit hreg hprims hx
    rcases (mem_buildRefDict_false reg prims _).mp hx with h | ⟨kv, hk1, hk2, hk3⟩ |
      ⟨q, hq1, _, _, hq4⟩
    · exact hjit h
    · have hf : isRefs kv.2 = false := hreg kv hk1 hk3
      rw [hf] at hk2
      exact absurd hk2 (by simp)
    · exact hprims q hq1 hq4

theorem C2_witness :
    isRefs (DecompValue.mk (some "torch._decomp.decompositions")) = false ∧
    tableKey (OpKey.packet "aten.special_entr") ∉
      buildRefDict false
        [(OpKey.packet "aten.special_entr",
          DecompValue.mk (some "torch._decomp.decompositions"))] [] :=
  ⟨by decide,
    (C2_refs_filter
      [(OpKey.packet "aten.special_entr",
        DecompValue.mk (some "torch._decomp.decompositions"))] []
      (OpKey.packet "aten.special_entr")
      (DecompValue.mk (some "torch._decomp.decompositions"))
      (by decide)).2 (by decide) (by decide) (by decide) (by decide)⟩

/-- C8: a decomposition-registry entry whose value lacks the module
attribute is treated exactly like an entry from a non-reference namespace:
it is excluded from the table (under the same non-collision provisos), and
table construction is a total function, so no error is raised. -/
theorem C8_missing_module_excluded (reg : List (OpKey × DecompValue)) (prims : List PrimAttr)
    (k : OpKey) (v : DecompValue) (hmem : (k, v) ∈ reg) (hmod : v.module = none) :
    isRefs v = false ∧
    (tableKey k ∉ jit_dict →
      (∀ kv, kv ∈ reg → tableKey kv.1 = tableKey k → isRefs kv.2 = false) →
      (∀ q, q ∈ prims → "torch.ops.prims." ++ q.name ≠ tableKey k) →
      tableKey k ∉ buildRefDict false reg prims) := by
  have hr : isRefs v = false := by
    unfold isRefs
    rw [hmod]
  refine ⟨hr, ?_⟩
  intro hjit hreg hprims hx
  rcases (mem_buildRefDict_false reg prims _).mp hx with h | ⟨kv, hk1, hk2, hk3⟩ |
    ⟨q, hq1, _, _, hq4⟩
  · exact hjit h
  · have hf : isRefs kv.2 = false := hreg kv hk1 hk3
    rw [hf] at hk2
    exact absurd hk2 (by simp)
  · exact hprims q hq1 hq4

theorem C8_witness :
    (DecompValue.mk none).module = none ∧
    tableKey (OpKey.packet "aten.digamma") ∉
      buildRefDict false [(OpKey.packet "aten.digamma", DecompValue.mk none)] [] :=
  ⟨rfl,
    (C8_missing_module_excluded [(OpKey.packet "aten.digamma", DecompValue.mk none)] []
      (OpKey.packet "aten.digamma") (DecompValue.mk none) (by decide) rfl).2
      (by decide) (by decide) (by decide)⟩

/-- C6: two registry keys that are different overloads of the same overload
packet normalize to the same table key, and when such entries are inserted
from the reference namespace the final table holds that key exactly once,
never twice. -/
theorem C6_overload_normalization (p a b : String) (v1 v2 : DecompValue)
    (reg : List (OpKey × DecompValue)) (prims : List PrimAttr)
    (h1 : (OpKey.overload p a, v1) ∈ reg) (h2 : (OpKey.overload p b, v2) ∈ reg)
    (h3 : isRefs v1 = true) :
    tableKey (OpKey.overload p a) = tableKey (OpKey.overload p b) ∧
    (buildRefDict false reg prims).count (tableKey (OpKey.overload p a)) = 1 := by
  constructor
  · rfl
  · refine List.count_eq_one_of_mem (buildRefDict_nodup false reg prims) ?_
    exact (mem_buildRefDict_false reg prims _).mpr
      (Or.inr (Or.inl ⟨(OpKey.overload p a, v1), h1, h3, rfl⟩))

theorem C6_witness :
    tableKey (OpKey.overload "aten.leaky_relu" "default") =
      tableKey (OpKey.overload "aten.leaky_relu" "out") ∧
    (buildRefDict false
      [(OpKey.overload "aten.leaky_relu" "default",
        DecompValue.mk (some "torch._refs.nn.functional")),
       (OpKey.overload "aten.leaky_relu" "out",
        DecompValue.mk (some "torch._refs.nn.functional"))] []).count
      (tableKey (OpKey.overload "aten.leaky_relu" "default")) = 1 :=
  C6_overload_normalization "aten.leaky_relu" "default" "out"
    (DecompValue.mk (some "torch._refs.nn.functional"))
    (DecompValue.mk (some "torch._refs.nn.functional"))
    [(OpKey.overload "aten.leaky_relu" "default",
      DecompValue.mk (some "torch._refs.nn.functional")),
     (OpKey.overload "aten.leaky_relu" "out",
      DecompValue.mk (some "torch._refs.nn.functional"))] []
    (by decide) (by decide) (by decide)

/-- C9: the denylist is applied only during the primitive-namespace
enumeration: a reference-namespace decomposition entry whose normalized key
contains a denylist string as a substring is still inserted into the table
in non-legacy mode. -/
theorem C9_denylist_not_applied_to_decomps (reg : List (OpKey × DecompValue))
    (prims : List PrimAttr) (k : OpKey) (v : DecompValue)
    (hmem : (k, v) ∈ reg) (href : isRefs v = true)
    (hcat : unsupported_prims.any (fun p => containsSub p (tableKey k)) = true) :
    tableKey k ∈ buildRefDict false reg prims :=
  (mem_buildRefDict_false reg prims _).mpr (Or.inr (Or.inl ⟨(k, v), hmem, href, rfl⟩))

theorem C9_witness :
    isRefs (DecompValue.mk (some "torch._refs")) = true ∧
    unsupported_prims.any
      (fun p => containsSub p (tableKey (OpKey.overload "aten.cat" "default"))) = true ∧
    tableKey (OpKey.overload "aten.cat" "default") ∈
      buildRefDict false
        [(OpKey.overload "aten.cat" "default", DecompValue.mk (some "torch._refs"))] [] :=
  ⟨by decide, by decide,
    C9_denylist_not_applied_to_decomps
      [(OpKey.overload "aten.cat" "default", DecompValue.mk (some "torch._refs"))] []
      (OpKey.overload "aten.cat" "default") (DecompValue.mk (some "torch._refs"))
      (by decide) (by decide) (by decide)⟩

/-- C1 counterexample: the primitive name "scatter" contains the denylist
entry "cat" as a substring, so per the claim its fully-qualified name must
be absent from the table; yet the code inserts torch.ops.prims.scatter,
because the check at operator_support.py line 187 tests the operation name
as a substring of the denylist entry, not the other way around. -/
theorem C1_counterexample :
    containsSub "cat" "scatter" = true ∧
    "torch.ops.prims.scatter" ∈
      buildRefDict false [] [PrimAttr.mk "scatter" true] := by
  constructor
  · decide
  · decide

/-- C1 amended: a packet-typed primitive name p is inserted by the
primitive-enumeration step if and only if p is not a substring of any
denylist entry (the reverse direction of the claim); when p is such a
substring, its fully-qualified name is absent from the final table provided
the decomposition step did not independently produce the same name. -/
theorem C1_amended (reg : List (OpKey × DecompValue)) (prims : List PrimAttr)
    (p : PrimAttr) (hp : p ∈ prims) (hpk : p.isPacket = true) :
    (deniedCheck p.name = false →
      "torch.ops.prims." ++ p.name ∈ buildRefDict false reg prims) ∧
    (deniedCheck p.name = true →
      "torch.ops.prims." ++ p.name ∉ decompStep jit_dict reg →
      "torch.ops.prims." ++ p.name ∉ buildRefDict false reg prims) := by
  constructor
  · intro hd
    exact (mem_buildRefDict_false reg prims _).mpr (Or.inr (Or.inr ⟨p, hp, hpk, hd, rfl⟩))
  · intro hd hdec hx
    have hx2 : "torch.ops.prims." ++ p.name ∈ primsStep (decompStep jit_dict reg) prims := hx
    rcases (mem_primsStep (decompStep jit_dict reg) prims _).mp hx2 with h | ⟨q, _, _, hq3, hq4⟩
    · exact hdec h
    · have hn : q.name = p.name := string_append_left_cancel hq4
      rw [hn, hd] at hq3
      exact absurd hq3 (by simp)

theorem C1_amended_witness :
    deniedCheck "cat" = true ∧
    "torch.ops.prims.cat" ∉ buildRefDict false [] [PrimAttr.mk "cat" true] :=
  ⟨by decide,
    (C1_amended [] [PrimAttr.mk "cat" true] (PrimAttr.mk "cat" true)
      (by decide) rfl).2 (by decide) (by decide)⟩
